import Mathlib

/-!
Shallow embedding of `src/sales-optimization.py` (class `SalesOptimizer`).

Modelling conventions:
* pandas DataFrames become Lean lists of structures; the float columns
  (`price`, `base_price`, `units` and everything derived from them) are
  modelled as exact rationals `ℚ`.
* The `week` column (a `YYYYMMDD` number parsed by `pd.to_datetime`) is kept
  as a natural number; the numeric order of `YYYYMMDD` values coincides with
  the chronological order of the parsed dates, so grouping and sorting by
  `date` is grouping and sorting by this number.
* `groupby` over a column produces one group per distinct key, keys sorted
  ascending (pandas default `sort=True`); we model the key list with an
  executable insertion sort that drops repeated keys.
* Fallible steps (`pd.qcut` raising `ValueError`, `.loc` raising `KeyError`,
  `idxmax` on an empty frame) are modelled with `Except String`.
* File output is modelled by the list of file names written, in order.
-/

namespace SalesOpt

/-- One raw CSV row of the fetched dataset, after the `date` parse of
`load_real_data` (the `date` column is the parsed `week`, kept here as the
`week` number itself). Columns: `week`, `store`, `price`, `base_price`,
`units`, `featured` (0/1 promotion flag). -/
structure RawRec where
  week : ℕ
  store : ℕ
  price : ℚ
  base_price : ℚ
  units : ℚ
  featured : ℕ
deriving DecidableEq, Repr

/-- Accumulator form of pandas `DataFrame.drop_duplicates()` with the default
`keep='first'`: a row is kept iff no row with identical values in all fields
occurred earlier. `seen` is the set of rows already encountered. -/
def dropDupAux : List RawRec → List RawRec → List RawRec
  | _, [] => []
  | seen, r :: rs => if r ∈ seen then dropDupAux seen rs else r :: dropDupAux (r :: seen) rs

/-- `self.data = self.data.drop_duplicates()` (line 33 of the source). -/
def drop_duplicates (l : List RawRec) : List RawRec := dropDupAux [] l

/-- A record with the derived metric columns of `clean_data`:
`revenue = price * units`, `profit = revenue - units * base_price`. -/
structure MRec extends RawRec where
  revenue : ℚ
  profit : ℚ
deriving DecidableEq, Repr

/-- Lines 36-37 of the source: add the `revenue` and `profit` columns. -/
def addMetrics (l : List RawRec) : List MRec :=
  l.map fun r =>
    { r with revenue := r.price * r.units, profit := r.price * r.units - r.units * r.base_price }

/-- The three qcut labels `['Low', 'Medium', 'High']`. -/
inductive Tier
  | Low
  | Medium
  | High
deriving DecidableEq, Repr

/-- Position of a tier in the ascending label list `['Low', 'Medium', 'High']`. -/
def Tier.idx : Tier → ℕ
  | .Low => 0
  | .Medium => 1
  | .High => 2

/-- The label string of a tier. -/
def tierName : Tier → String
  | .Low => "Low"
  | .Medium => "Medium"
  | .High => "High"

/-- Insert a key into a sorted list of distinct keys, dropping it if already
present. Models the sorted distinct group keys of a pandas `groupby`. -/
def insertKey (x : ℕ) : List ℕ → List ℕ
  | [] => [x]
  | y :: ys => if x < y then x :: y :: ys else if x = y then y :: ys else y :: insertKey x ys

/-- The sorted list of distinct values of a column: the index of a pandas
`groupby` result (pandas sorts group keys ascending by default). -/
def sortedKeys (l : List ℕ) : List ℕ := l.foldr insertKey []

/-- Sorted distinct `store` values of the data. -/
def storeKeys (l : List RawRec) : List ℕ := sortedKeys (l.map (·.store))

/-- `units` summed over the records of one store:
one entry of `self.data.groupby('store')['units'].sum()` (line 40). -/
def storeTotal (l : List RawRec) (s : ℕ) : ℚ :=
  ((l.filter (fun r => r.store = s)).map (·.units)).sum

/-- The series `customer_frequency` of line 40: per-store `units` totals,
indexed by store ascending. -/
def customer_frequency (l : List RawRec) : List ℚ :=
  (storeKeys l).map (storeTotal l)

/-- Insertion of a rational into a sorted list, keeping duplicates. -/
def insertRat (x : ℚ) : List ℚ → List ℚ
  | [] => [x]
  | y :: ys => if x ≤ y then x :: y :: ys else y :: insertRat x ys

/-- Sorting a list of rationals ascending (numpy sorts the series values
before interpolating quantiles). -/
def sortRat (l : List ℚ) : List ℚ := l.foldr insertRat []

/-- The `k/3` quantile (k = 0, 1, 2, 3) of a list of values under the linear
interpolation rule pandas `qcut` uses: with sorted values `s` of length `n`,
the quantile at fraction `p` is `s[i] + (h - i) * (s[i+1] - s[i])` where
`h = p * (n - 1)` and `i = floor h`. For `p = k/3`, `h = k*(n-1)/3`. -/
def quantile3 (v : List ℚ) (k : ℕ) : ℚ :=
  let s := sortRat v
  let m := k * (s.length - 1)
  let γ : ℚ := (m % 3 : ℕ) / 3
  (1 - γ) * s.getD (m / 3) 0 + γ * s.getD (m / 3 + 1) 0

/-- The four bin edges `pd.qcut(·, q=3)` computes: the 0th, 33rd, 66th and
100th percentiles of the series values. -/
def binEdges (v : List ℚ) : List ℚ :=
  [quantile3 v 0, quantile3 v 1, quantile3 v 2, quantile3 v 3]

/-- Which of the three qcut bins a series value falls into. qcut bins are
right-closed, `(e0 - eps, e1], (e1, e2], (e2, e3]`; the lowest edge is
nudged down so the minimum lands in bin 0, and every series value is at most
`e3` (the maximum), so the two upper-edge tests determine the bin for every
value of the series the edges were computed from. -/
def binIndex (v : List ℚ) (x : ℚ) : ℕ :=
  if x ≤ quantile3 v 1 then 0 else if x ≤ quantile3 v 2 then 1 else 2

/-- The qcut label of a bin: bins 0, 1, 2 are labelled Low, Medium, High. -/
def tierLabel (n : ℕ) : Tier :=
  if n = 0 then .Low else if n = 1 then .Medium else .High

/-- The tier a store is mapped to by
`pd.qcut(customer_frequency, q=3, labels=['Low','Medium','High']).to_dict()`
(lines 41-43): its `units` total binned against the tertile edges of the
per-store totals. -/
def tierOfStore (l : List RawRec) (s : ℕ) : Tier :=
  tierLabel (binIndex (customer_frequency l) (storeTotal l s))

/-- A fully cleaned record: metrics plus the `customer_segment` column. -/
structure CRec extends MRec where
  customer_segment : Tier
deriving DecidableEq, Repr

/-- `clean_data` (lines 30-43): drop exact-duplicate rows, add `revenue` and
`profit`, then assign `customer_segment` via qcut over per-store `units`
totals. `pd.qcut` raises `ValueError: Bin edges must be unique` when the
computed quantile edges contain duplicates (default `duplicates='raise'`);
the error is not caught anywhere in the script. -/
def clean_data (raw : List RawRec) : Except String (List CRec) :=
  let d := drop_duplicates raw
  if (binEdges (customer_frequency d)).Nodup then
    .ok ((addMetrics d).map fun m =>
      { m with customer_segment := tierOfStore d m.store })
  else
    .error "ValueError: Bin edges must be unique"

/-- One row of `weekly_sales` (lines 48-52): per-date sums. -/
structure WeekRow where
  date : ℕ
  revenue : ℚ
  units : ℚ
  profit : ℚ
deriving DecidableEq, Repr

/-- Mean of a list of rationals (`sum / count`). Only applied to nonempty
groups by the aggregations below; pandas would give NaN on an empty frame,
which no claim exercises. -/
def mean (l : List ℚ) : ℚ := l.sum / l.length

/-- Half-to-even rounding to an integer, as numpy/pandas `round` does. -/
def roundHalfEven (x : ℚ) : ℤ :=
  if x - ⌊x⌋ < 1 / 2 then ⌊x⌋
  else if 1 / 2 < x - ⌊x⌋ then ⌊x⌋ + 1
  else if 2 ∣ ⌊x⌋ then ⌊x⌋ else ⌊x⌋ + 1

/-- pandas `.round(2)`: round to 2 decimal places, ties to even. -/
def round2 (x : ℚ) : ℚ := (roundHalfEven (100 * x) : ℚ) / 100

/-- `weekly_sales` (lines 48-52): group by `date`, sum `revenue`, `units`,
`profit`; `groupby` emits one row per distinct date, dates ascending. -/
def weekly_sales (rows : List CRec) : List WeekRow :=
  (sortedKeys (rows.map (·.week))).map fun d =>
    let g := rows.filter (fun r => r.week = d)
    ⟨d, (g.map (·.revenue)).sum, (g.map (·.units)).sum, (g.map (·.profit)).sum⟩

/-- One row of `segment_analysis`: summed revenue, summed units, mean profit,
all rounded to 2 decimals by the frame-level `.round(2)`. -/
structure SegRow where
  revenue : ℚ
  units : ℚ
  profit : ℚ
deriving DecidableEq, Repr

/-- The group keys of `groupby('customer_segment')`. The segment column holds
the label strings, so pandas sorts the present keys alphabetically:
High < Low < Medium. -/
def segKeys (rows : List CRec) : List Tier :=
  [Tier.High, Tier.Low, Tier.Medium].filter fun t => rows.any fun r => r.customer_segment = t

/-- `segment_analysis` (lines 55-59): group by segment; sum `revenue`, sum
`units`, mean `profit`; `.round(2)`. -/
def segment_analysis (rows : List CRec) : List (Tier × SegRow) :=
  (segKeys rows).map fun t =>
    let g := rows.filter (fun r => r.customer_segment = t)
    (t, ⟨round2 ((g.map (·.revenue)).sum), round2 ((g.map (·.units)).sum),
         round2 (mean (g.map (·.profit)))⟩)

/-- One row of `promo_analysis`: mean units, mean revenue, mean profit,
rounded to 2 decimals. -/
structure PromoRow where
  units : ℚ
  revenue : ℚ
  profit : ℚ
deriving DecidableEq, Repr

/-- `promo_analysis` (lines 62-66): group by the `featured` flag (one row per
present flag value, ascending); mean `units`, `revenue`, `profit`; `.round(2)`. -/
def promo_analysis (rows : List CRec) : List (ℕ × PromoRow) :=
  (sortedKeys (rows.map (·.featured))).map fun fl =>
    let g := rows.filter (fun r => r.featured = fl)
    (fl, ⟨round2 (mean (g.map (·.units))), round2 (mean (g.map (·.revenue))),
          round2 (mean (g.map (·.profit)))⟩)

/-- The `self.summary` dict built by `analyze_sales_trends` (lines 68-72). -/
structure Summary where
  weekly_sales : List WeekRow
  segment_analysis : List (Tier × SegRow)
  promo_analysis : List (ℕ × PromoRow)
deriving DecidableEq, Repr

/-- The mutable state of a `SalesOptimizer` instance: the cleaned data and
the (initially absent) summary. -/
structure AppState where
  data : List CRec
  summary : Option Summary
deriving DecidableEq, Repr

/-- The summary value `analyze_sales_trends` computes from the cleaned data. -/
def mkSummary (rows : List CRec) : Summary :=
  ⟨weekly_sales rows, segment_analysis rows, promo_analysis rows⟩

/-- `analyze_sales_trends` (lines 45-74): computes the three aggregates from
`self.data` and stores them in `self.summary`. -/
def analyze_sales_trends (st : AppState) : AppState :=
  { st with summary := some (mkSummary st.data) }

/-- `self.summary['promo_analysis'].loc[fl, 'profit']`-style lookup: the row
of the promotion aggregate at flag value `fl`, if that flag value is present
(`.loc` raises `KeyError` otherwise). -/
def lookupProm (s : Summary) (fl : ℕ) : Option PromoRow :=
  (s.promo_analysis.find? (fun p => p.1 = fl)).map (·.2)

/-- Fold step for `idxmax`: keep the current best key, replacing it only on a
strictly larger value, so the first occurrence of the maximum wins. -/
def idxmaxAux (best : Tier × ℚ) : List (Tier × SegRow) → Tier
  | [] => best.1
  | (t, row) :: rest =>
    if best.2 < row.revenue then idxmaxAux (t, row.revenue) rest else idxmaxAux best rest

/-- `segment_analysis['revenue'].idxmax()`: the key of the first row with
maximal revenue; raises on an empty frame (`none`). -/
def idxmaxRevenue : List (Tier × SegRow) → Option Tier
  | [] => none
  | (t, row) :: rest => some (idxmaxAux (t, row.revenue) rest)

/-- Plain rendering of a rational; stands in for pythonic number formatting,
which is presentation glue the claims do not inspect. -/
def ratStr (q : ℚ) : String := toString q

/-- `DataFrame.to_string()` of the segment table, modelled as one line per row. -/
def segTableStr (l : List (Tier × SegRow)) : String :=
  String.intercalate "\n" (l.map fun p =>
    tierName p.1 ++ " " ++ ratStr p.2.revenue ++ " " ++ ratStr p.2.units ++ " " ++ ratStr p.2.profit)

/-- `DataFrame.to_string()` of the promotion table, one line per row. -/
def promoTableStr (l : List (ℕ × PromoRow)) : String :=
  String.intercalate "\n" (l.map fun p =>
    toString p.1 ++ " " ++ ratStr p.2.units ++ " " ++ ratStr p.2.revenue ++ " " ++ ratStr p.2.profit)

/-- The report text up to and including `- Promotional effectiveness: `
(the part of the f-string of lines 114-131 before the judgement word). -/
def reportHead (today : String) (data : List CRec) (s : Summary) (best : Tier) : String :=
  "\nSales Optimization Analysis Report\nGenerated on: " ++ today ++
  "\n\n1. Overall Performance Metrics:\n   - Total Revenue: $" ++
  ratStr ((data.map (·.revenue)).sum) ++
  "\n   - Total Units Sold: " ++ ratStr ((data.map (·.units)).sum) ++
  "\n   - Average Profit per Sale: $" ++ ratStr (mean (data.map (·.profit))) ++
  "\n\n2. Customer Segment Analysis:\n" ++ segTableStr s.segment_analysis ++
  "\n\n3. Promotion Effectiveness:\n" ++ promoTableStr s.promo_analysis ++
  "\n\n4. Key Insights:\n   - Most valuable customer segment: " ++ tierName best ++
  "\n   - Promotional effectiveness: "

/-- The report text between the judgement word and the recommendation word
(lines 134-139 of the f-string). -/
def reportMid (best : Tier) : String :=
  " impact on profits\n   \n5. Recommendations:\n   - Focus on " ++ tierName best ++
  " segment for immediate revenue\n   - "

/-- The report text after the recommendation word (lines 139-142). -/
def reportTail : String :=
  " promotional activities\n   \nVisualizations have been saved in the reports directory.\n"

/-- The fully rendered report string, given the values of the fallible
lookups. The judgement is `Positive` iff
`promo_analysis.loc[1,'profit'] > promo_analysis.loc[0,'profit']` and the
recommendation is `Increase` under exactly the same condition (lines 131-139). -/
def reportString (today : String) (data : List CRec) (s : Summary)
    (best : Tier) (p1 p0 : PromoRow) : String :=
  reportHead today data s best ++
  ((if p0.profit < p1.profit then "Positive" else "Negative") ++
   (reportMid best ++
    ((if p0.profit < p1.profit then "Increase" else "Decrease") ++ reportTail)))

/-- Construction of the report f-string (lines 114-142), with its fallible
subexpressions in Python evaluation order: `idxmax()` on the segment revenue
column, then `.loc[1, 'profit']`, then `.loc[0, 'profit']`. -/
def reportBody (today : String) (data : List CRec) (s : Summary) : Except String String :=
  match idxmaxRevenue s.segment_analysis with
  | none => .error "ValueError: attempt to get argmax of an empty sequence"
  | some best =>
    match lookupProm s 1 with
    | none => .error "KeyError: 1"
    | some p1 =>
      match lookupProm s 0 with
      | none => .error "KeyError: 0"
      | some p0 => .ok (reportString today data s best p1 p0)

/-- The summary `generate_report` uses: the stored one, or the one a fresh
`analyze_sales_trends()` call would produce when `self.summary` is falsy
(line 111-112). -/
def summaryOf (st : AppState) : Summary := st.summary.getD (mkSummary st.data)

/-- `generate_report` (lines 109-148): build the report text; the file write
happens only after the whole f-string evaluated successfully. -/
def generate_report (today : String) (st : AppState) : Except String String :=
  reportBody today st.data (summaryOf st)

/-- The three chart files `generate_visualizations` writes, in write order
(lines 90, 98, 106). -/
def chartFiles : List String :=
  ["reports/sales_trend.png", "reports/segment_analysis.png", "reports/promo_effectiveness.png"]

/-- The text report file written by `generate_report` (line 145). -/
def reportFile : String := "reports/analysis_report.txt"

/-- The `__main__` run (lines 150-156): construct the optimizer (fetch +
parse + clean; `none` stands for a failed or malformed fetch), analyze,
write the three charts, then build and write the text report. Returns the
files written, in order, and the uncaught error that aborted the run, if
any. Chart rendering itself is library glue modelled as fault-free. -/
def runMain (fetched : Option (List RawRec)) (today : String) :
    List String × Option String :=
  match fetched with
  | none => ([], some "FetchError")
  | some raw =>
    match clean_data raw with
    | .error e => ([], some e)
    | .ok d =>
      let st := analyze_sales_trends ⟨d, none⟩
      match generate_report today st with
      | .error e => (chartFiles, some e)
      | .ok _ => (chartFiles ++ [reportFile], none)

/-- `s` contains `sub` as a substring. -/
def containsString (s sub : String) : Prop :=
  ∃ a b, s = a ++ (sub ++ b)

/-- The payload of a successful report, or the error text. -/
def okOr (e : Except String String) : String :=
  match e with
  | .ok s => s
  | .error s => s

/-- Concrete dataset for the spec scenario: three stores with `units` totals
10, 50 and 90, all records promoted (`featured = 1`). -/
def raw3 : List RawRec :=
  [⟨1, 1, 2, 1, 10, 1⟩, ⟨1, 2, 2, 1, 50, 1⟩, ⟨1, 3, 2, 1, 90, 1⟩]

/-- The cleaned form of `raw3`: revenue `2 * units`, profit `units`,
tiers Low, Medium, High in store order. -/
def cleaned3 : List CRec :=
  [⟨⟨⟨1, 1, 2, 1, 10, 1⟩, 20, 10⟩, .Low⟩,
   ⟨⟨⟨1, 2, 2, 1, 50, 1⟩, 100, 50⟩, .Medium⟩,
   ⟨⟨⟨1, 3, 2, 1, 90, 1⟩, 180, 90⟩, .High⟩]

/-- Two distinct stores with distinct totals 10 and 20: fewer than three
locations, yet the qcut edges (10, 40/3, 50/3, 20) are pairwise distinct. -/
def raw2 : List RawRec :=
  [⟨1, 1, 2, 1, 10, 0⟩, ⟨1, 2, 2, 1, 20, 1⟩]

/-- A single store: all four qcut edges equal its total, so qcut raises. -/
def raw1 : List RawRec :=
  [⟨1, 1, 2, 1, 10, 0⟩]

/-- The cleaned form of `raw2`: with only two location totals (10 and 20) the
tertile edges are 10, 40/3, 50/3, 20, so qcut silently assigns Low and High. -/
def cleaned2 : List CRec :=
  [⟨⟨⟨1, 1, 2, 1, 10, 0⟩, 20, 10⟩, .Low⟩,
   ⟨⟨⟨1, 2, 2, 1, 20, 1⟩, 40, 20⟩, .High⟩]

/-- Two sample raw rows that differ in one field, used to exercise the
deduplication claims. -/
def rowA : RawRec := ⟨1, 1, 2, 1, 10, 0⟩

/-- Second sample row, distinct from `rowA` in the `week` field only. -/
def rowB : RawRec := ⟨2, 1, 2, 1, 10, 0⟩

/-- A summary whose promotion aggregate has both flag groups, with promoted
mean profit 5 and non-promoted mean profit 3 (the spec scenario). -/
def summary6 : Summary :=
  ⟨[], [(Tier.Low, ⟨1, 1, 1⟩)], [(0, ⟨1, 1, 3⟩), (1, ⟨1, 1, 5⟩)]⟩

/-- An analyzer state carrying `summary6`. -/
def state6 : AppState := ⟨[], some summary6⟩

/-- Three cleaned records over two weeks (weeks 2, 1, 2 in input order), used
to exercise the weekly aggregation. -/
def rows5 : List CRec :=
  [⟨⟨⟨2, 1, 3, 2, 1, 0⟩, 3, 1⟩, .Low⟩,
   ⟨⟨⟨1, 1, 5, 5, 2, 0⟩, 5, 0⟩, .Low⟩,
   ⟨⟨⟨2, 2, 7, 5, 1, 1⟩, 7, 2⟩, .Medium⟩]

/-- Helper lemmas about the keep-first deduplication. -/
theorem dropDupAux_sublist (seen l : List RawRec) : List.Sublist (dropDupAux seen l) l := by
  induction l generalizing seen with
  | nil => simp [dropDupAux]
  | cons r rs ih =>
    by_cases h : r ∈ seen
    · simpa [dropDupAux, h] using (ih seen).cons r
    · simpa [dropDupAux, h] using (ih (r :: seen)).cons₂ r

theorem mem_dropDupAux {x : RawRec} :
    ∀ (seen l : List RawRec), x ∈ dropDupAux seen l ↔ x ∈ l ∧ x ∉ seen := by
  intro seen l
  induction l generalizing seen with
  | nil => simp [dropDupAux]
  | cons r rs ih =>
    by_cases h : r ∈ seen
    · have h' : x = r → x ∈ seen := fun e => e ▸ h
      simp only [dropDupAux, if_pos h, ih, List.mem_cons]
      tauto
    · have h' : x = r → x ∉ seen := fun e => e ▸ h
      simp only [dropDupAux, if_neg h, List.mem_cons, ih]
      tauto

theorem dropDupAux_nodup (seen l : List RawRec) : (dropDupAux seen l).Nodup := by
  induction l generalizing seen with
  | nil => simp [dropDupAux]
  | cons r rs ih =>
    by_cases h : r ∈ seen
    · simpa [dropDupAux, h] using ih seen
    · rw [dropDupAux, if_neg h]
      refine List.nodup_cons.2 ⟨fun hr => ?_, ih (r :: seen)⟩
      exact ((mem_dropDupAux (r :: seen) rs).1 hr).2 (List.mem_cons_self r seen)

theorem dropDupAux_eq_self (seen l : List RawRec) (hl : l.Nodup)
    (hs : ∀ x ∈ l, x ∉ seen) : dropDupAux seen l = l := by
  induction l generalizing seen with
  | nil => simp [dropDupAux]
  | cons r rs ih =>
    rw [dropDupAux, if_neg (hs r (List.mem_cons_self r rs))]
    have hrs : rs.Nodup := (List.nodup_cons.1 hl).2
    have hr : r ∉ rs := (List.nodup_cons.1 hl).1
    have htail : dropDupAux (r :: seen) rs = rs := by
      refine ih (r :: seen) hrs fun x hx hmem => ?_
      rcases List.mem_cons.1 hmem with rfl | hseen
      · exact hr hx
      · exact hs x (List.mem_cons_of_mem r hx) hseen
    rw [htail]

theorem drop_duplicates_sublist (l : List RawRec) : List.Sublist (drop_duplicates l) l :=
  dropDupAux_sublist [] l

theorem mem_drop_duplicates {x : RawRec} {l : List RawRec} :
    x ∈ drop_duplicates l ↔ x ∈ l := by
  rw [drop_duplicates, mem_dropDupAux]
  simp

theorem drop_duplicates_nodup (l : List RawRec) : (drop_duplicates l).Nodup :=
  dropDupAux_nodup [] l

theorem drop_duplicates_idem (l : List RawRec) :
    drop_duplicates (drop_duplicates l) = drop_duplicates l :=
  dropDupAux_eq_self [] (drop_duplicates l) (drop_duplicates_nodup l) (by simp)

theorem dropDupAux_indexOf_le :
    ∀ (seen l : List RawRec) {x y : RawRec}, x ∈ dropDupAux seen l → y ∈ dropDupAux seen l →
      ((dropDupAux seen l).indexOf x ≤ (dropDupAux seen l).indexOf y ↔
        l.indexOf x ≤ l.indexOf y) := by
  intro seen l
  induction l generalizing seen with
  | nil => intro x y hx _; simp [dropDupAux] at hx
  | cons r rs ih =>
    intro x y hx hy
    by_cases h : r ∈ seen
    · rw [dropDupAux, if_pos h] at hx hy ⊢
      have hxm := (mem_dropDupAux seen rs).1 hx
      have hym := (mem_dropDupAux seen rs).1 hy
      have hxr : r ≠ x := fun e => hxm.2 (e ▸ h)
      have hyr : r ≠ y := fun e => hym.2 (e ▸ h)
      rw [List.indexOf_cons_ne rs hxr, List.indexOf_cons_ne rs hyr, Nat.succ_le_succ_iff]
      exact ih seen hx hy
    · rw [dropDupAux, if_neg h] at hx hy ⊢
      by_cases hxr : x = r
      · subst hxr
        simp [List.indexOf_cons_self]
      · have hx' : x ∈ dropDupAux (r :: seen) rs := by
          rcases List.mem_cons.1 hx with e | hx'
          · exact absurd e hxr
          · exact hx'
        have hrx : r ≠ x := fun e => hxr e.symm
        by_cases hyr : y = r
        · subst hyr
          rw [List.indexOf_cons_self, List.indexOf_cons_self,
            List.indexOf_cons_ne _ hrx, List.indexOf_cons_ne _ hrx]
          simp
        · have hy' : y ∈ dropDupAux (r :: seen) rs := by
            rcases List.mem_cons.1 hy with e | hy'
            · exact absurd e hyr
            · exact hy'
          have hry : r ≠ y := fun e => hyr e.symm
          rw [List.indexOf_cons_ne _ hrx, List.indexOf_cons_ne _ hry,
            List.indexOf_cons_ne _ hrx, List.indexOf_cons_ne _ hry,
            Nat.succ_le_succ_iff, Nat.succ_le_succ_iff]
          exact ih (r :: seen) hx' hy'

/-- C3. Deduplication removes exactly the rows that are identical across all
fields (the result is duplicate-free, keeps every row value that occurs in
the input, and drops nothing else — it is a sublist of the input), and it is
idempotent: applying it to its own output removes no further rows. -/
theorem dedup_exact_and_idempotent (l : List RawRec) :
    (drop_duplicates l).Nodup ∧
    (∀ x : RawRec, x ∈ drop_duplicates l ↔ x ∈ l) ∧
    List.Sublist (drop_duplicates l) l ∧
    drop_duplicates (drop_duplicates l) = drop_duplicates l :=
  ⟨drop_duplicates_nodup l, fun _ => mem_drop_duplicates, drop_duplicates_sublist l,
    drop_duplicates_idem l⟩

/-- C10. Deduplication keeps the first occurrence of each row and preserves
the input order: the output is a duplicate-free sublist of the input with
exactly the input's row values, and any two retained rows are ordered by the
positions of their first occurrences in the input. -/
theorem dedup_keeps_first_occurrences (l : List RawRec) :
    List.Sublist (drop_duplicates l) l ∧
    (drop_duplicates l).Nodup ∧
    (∀ x : RawRec, x ∈ drop_duplicates l ↔ x ∈ l) ∧
    ∀ x ∈ drop_duplicates l, ∀ y ∈ drop_duplicates l,
      ((drop_duplicates l).indexOf x ≤ (drop_duplicates l).indexOf y ↔
        l.indexOf x ≤ l.indexOf y) :=
  ⟨drop_duplicates_sublist l, drop_duplicates_nodup l, fun _ => mem_drop_duplicates,
    fun _ hx _ hy => dropDupAux_indexOf_le [] l hx hy⟩

/-- Witness for C10 on the concrete input `[rowA, rowB, rowA]`. -/
theorem dedup_keeps_first_occurrences_witness :
    List.Sublist (drop_duplicates [rowA, rowB, rowA]) [rowA, rowB, rowA] ∧
    (drop_duplicates [rowA, rowB, rowA]).Nodup ∧
    (rowB ∈ drop_duplicates [rowA, rowB, rowA] ↔ rowB ∈ [rowA, rowB, rowA]) ∧
    ((drop_duplicates [rowA, rowB, rowA]).indexOf rowA ≤
        (drop_duplicates [rowA, rowB, rowA]).indexOf rowB ↔
      ([rowA, rowB, rowA] : List RawRec).indexOf rowA ≤
        ([rowA, rowB, rowA] : List RawRec).indexOf rowB) := by
  obtain ⟨h1, h2, h3, h4⟩ := dedup_keeps_first_occurrences [rowA, rowB, rowA]
  refine ⟨h1, h2, h3 rowB, h4 rowA ?_ rowB ?_⟩
  · exact (h3 rowA).2 (by simp)
  · exact (h3 rowB).2 (by simp)

/-- Membership in the sorted-distinct-keys insertion. -/
theorem mem_insertKey {x y : ℕ} : ∀ l : List ℕ, y ∈ insertKey x l ↔ y = x ∨ y ∈ l := by
  intro l
  induction l with
  | nil => simp [insertKey]
  | cons z zs ih =>
    rw [insertKey]
    by_cases h1 : x < z
    · rw [if_pos h1]
      simp [List.mem_cons]
    · rw [if_neg h1]
      by_cases h2 : x = z
      · subst h2
        rw [if_pos rfl]
        simp only [List.mem_cons]
        tauto
      · rw [if_neg h2]
        simp only [List.mem_cons, ih]
        tauto

theorem sorted_insertKey {x : ℕ} :
    ∀ {l : List ℕ}, l.Sorted (· < ·) → (insertKey x l).Sorted (· < ·) := by
  intro l
  induction l with
  | nil => intro _; simp [insertKey]
  | cons z zs ih =>
    intro hs
    rw [List.sorted_cons] at hs
    obtain ⟨hz, hzs⟩ := hs
    rw [insertKey]
    by_cases h1 : x < z
    · rw [if_pos h1, List.sorted_cons]
      refine ⟨fun b hb => ?_, List.sorted_cons.2 ⟨hz, hzs⟩⟩
      rcases List.mem_cons.1 hb with rfl | hb
      · exact h1
      · exact h1.trans (hz b hb)
    · rw [if_neg h1]
      by_cases h2 : x = z
      · rw [if_pos h2, List.sorted_cons]
        exact ⟨hz, hzs⟩
      · rw [if_neg h2, List.sorted_cons]
        have hzx : z < x := by omega
        refine ⟨fun b hb => ?_, ih hzs⟩
        rcases (mem_insertKey zs).1 hb with rfl | hb
        · exact hzx
        · exact hz b hb

theorem sortedKeys_sorted (l : List ℕ) : (sortedKeys l).Sorted (· < ·) := by
  induction l with
  | nil => simp [sortedKeys]
  | cons a as ih =>
    show (insertKey a (sortedKeys as)).Sorted (· < ·)
    exact sorted_insertKey ih

theorem mem_sortedKeys {x : ℕ} : ∀ {l : List ℕ}, x ∈ sortedKeys l ↔ x ∈ l := by
  intro l
  induction l with
  | nil => simp [sortedKeys]
  | cons a as ih =>
    show x ∈ insertKey a (sortedKeys as) ↔ _
    rw [mem_insertKey, ih, List.mem_cons]

theorem sortedKeys_nodup (l : List ℕ) : (sortedKeys l).Nodup :=
  (sortedKeys_sorted l).nodup

theorem sortedKeys_length (l : List ℕ) : (sortedKeys l).length = l.toFinset.card := by
  have h1 : (sortedKeys l).toFinset = l.toFinset := by
    ext a
    simp [List.mem_toFinset, mem_sortedKeys]
  rw [← h1, List.toFinset_card_of_nodup (sortedKeys_nodup l)]

theorem sortedKeys_const {a : ℕ} :
    ∀ {l : List ℕ}, l ≠ [] → (∀ x ∈ l, x = a) → sortedKeys l = [a] := by
  intro l
  induction l with
  | nil => intro h; exact absurd rfl h
  | cons b bs ih =>
    intro _ hall
    have hb : b = a := hall b (List.mem_cons_self b bs)
    subst hb
    show insertKey b (sortedKeys bs) = [b]
    by_cases hbs : bs = []
    · subst hbs
      simp [sortedKeys, insertKey]
    · rw [ih hbs fun x hx => hall x (List.mem_cons_of_mem b hx)]
      simp [insertKey]

/-- qcut bin membership is monotone in the binned value (for fixed edges). -/
theorem binIndex_mono (v : List ℚ) {x y : ℚ} (h : x ≤ y) : binIndex v x ≤ binIndex v y := by
  unfold binIndex
  by_cases hx1 : x ≤ quantile3 v 1
  · rw [if_pos hx1]
    exact Nat.zero_le _
  · have hy1 : ¬ y ≤ quantile3 v 1 := fun hy => hx1 (h.trans hy)
    by_cases hx2 : x ≤ quantile3 v 2
    · rw [if_neg hx1, if_pos hx2, if_neg hy1]
      by_cases hy2 : y ≤ quantile3 v 2
      · rw [if_pos hy2]
      · rw [if_neg hy2]
        omega
    · have hy2 : ¬ y ≤ quantile3 v 2 := fun hy => hx2 (h.trans hy)
      rw [if_neg hx1, if_neg hx2, if_neg hy1, if_neg hy2]

/-- The ascending labels Low, Medium, High are monotone in the bin number. -/
theorem tierLabel_idx_mono {i j : ℕ} (h : i ≤ j) : (tierLabel i).idx ≤ (tierLabel j).idx := by
  unfold tierLabel
  by_cases hi0 : i = 0
  · rw [if_pos hi0]
    exact Nat.zero_le _
  · rw [if_neg hi0]
    by_cases hi1 : i = 1
    · rw [if_pos hi1]
      have hj0 : ¬ j = 0 := by omega
      rw [if_neg hj0]
      by_cases hj1 : j = 1
      · rw [if_pos hj1]
      · rw [if_neg hj1]
        simp [Tier.idx]
    · have hj0 : ¬ j = 0 := by omega
      have hj1 : ¬ j = 1 := by omega
      rw [if_neg hi1, if_neg hj0, if_neg hj1]

/-- Tier assignment is monotone in the per-store volume. -/
theorem tierOfStore_mono (l : List RawRec) {s₁ s₂ : ℕ}
    (h : storeTotal l s₁ ≤ storeTotal l s₂) :
    (tierOfStore l s₁).idx ≤ (tierOfStore l s₂).idx :=
  tierLabel_idx_mono (binIndex_mono (customer_frequency l) h)

/-- Shape of a successful `clean_data` run. -/
theorem clean_data_ok {raw : List RawRec} {d : List CRec} (h : clean_data raw = .ok d) :
    d = (addMetrics (drop_duplicates raw)).map fun m =>
      { m with customer_segment := tierOfStore (drop_duplicates raw) m.store } := by
  simp only [clean_data] at h
  by_cases hc : (binEdges (customer_frequency (drop_duplicates raw))).Nodup
  · rw [if_pos hc] at h
    simpa using h.symm
  · rw [if_neg hc] at h
    simp at h

/-- `clean_data` fails exactly when the qcut edges are not pairwise distinct. -/
theorem clean_data_isOk_false_iff (raw : List RawRec) :
    (clean_data raw).isOk = false ↔
      ¬ (binEdges (customer_frequency (drop_duplicates raw))).Nodup := by
  simp only [clean_data]
  by_cases hc : (binEdges (customer_frequency (drop_duplicates raw))).Nodup
  · rw [if_pos hc]
    simp [Except.isOk, Except.toBool, hc]
  · rw [if_neg hc]
    simp [Except.isOk, Except.toBool, hc]

/-- Concrete evaluation: the three-store scenario dataset cleans successfully
into `cleaned3` (tiers Low, Medium, High in ascending volume order). -/
theorem clean_raw3 : clean_data raw3 = .ok cleaned3 := by
  norm_num [clean_data, drop_duplicates, dropDupAux, addMetrics, customer_frequency,
    storeKeys, sortedKeys, insertKey, storeTotal, sortRat, insertRat, quantile3,
    binEdges, binIndex, tierOfStore, tierLabel, raw3, cleaned3, List.filter]

/-- Concrete evaluation: two distinct stores with distinct totals clean
successfully — qcut does not fail on fewer than 3 locations. -/
theorem clean_raw2 : clean_data raw2 = .ok cleaned2 := by
  norm_num [clean_data, drop_duplicates, dropDupAux, addMetrics, customer_frequency,
    storeKeys, sortedKeys, insertKey, storeTotal, sortRat, insertRat, quantile3,
    binEdges, binIndex, tierOfStore, tierLabel, raw2, cleaned2, List.filter]

/-- Concrete evaluation: one single store makes all four qcut edges equal, so
`clean_data` aborts with the uncaught pandas `ValueError`. -/
theorem clean_raw1 : clean_data raw1 = .error "ValueError: Bin edges must be unique" := by
  norm_num [clean_data, drop_duplicates, dropDupAux, addMetrics, customer_frequency,
    storeKeys, sortedKeys, insertKey, storeTotal, sortRat, insertRat, quantile3,
    binEdges, binIndex, tierOfStore, tierLabel, raw1, List.filter]

/-- C1. Tier assignment: every cleaned record carries the tier its location
is mapped to by the qcut tertile split of per-location `units` totals
(broadcast); the assigned tier is monotone in the location volume; and in
the scenario of 3 locations with unit totals 10, 50, 90 the tiers are Low,
Medium, High respectively. -/
theorem tier_assignment_monotone_broadcast (raw : List RawRec) (d : List CRec)
    (h : clean_data raw = .ok d) :
    (∀ r ∈ d, r.customer_segment = tierOfStore (drop_duplicates raw) r.store) ∧
    (∀ r₁ ∈ d, ∀ r₂ ∈ d,
      storeTotal (drop_duplicates raw) r₁.store ≤ storeTotal (drop_duplicates raw) r₂.store →
      r₁.customer_segment.idx ≤ r₂.customer_segment.idx) ∧
    (clean_data raw3).map (fun l => l.map (·.customer_segment)) =
      .ok [Tier.Low, Tier.Medium, Tier.High] := by
  have hd := clean_data_ok h
  subst hd
  refine ⟨?_, ?_, ?_⟩
  · intro r hr
    rcases List.mem_map.1 hr with ⟨m, _, rfl⟩
    rfl
  · intro r₁ h₁ r₂ h₂ hle
    rcases List.mem_map.1 h₁ with ⟨m₁, _, rfl⟩
    rcases List.mem_map.1 h₂ with ⟨m₂, _, rfl⟩
    exact tierOfStore_mono _ hle
  · rw [clean_raw3]
    simp [Except.map, cleaned3]

/-- Witness for C1: in the cleaned scenario data, the first record's tier is
its store's qcut tier, the lowest-volume store's tier is no higher than the
highest-volume store's, and the tiers are Low, Medium, High. -/
theorem tier_assignment_monotone_broadcast_witness :
    ((⟨⟨⟨1, 1, 2, 1, 10, 1⟩, 20, 10⟩, .Low⟩ : CRec).customer_segment =
        tierOfStore (drop_duplicates raw3)
          (⟨⟨⟨1, 1, 2, 1, 10, 1⟩, 20, 10⟩, .Low⟩ : CRec).store) ∧
    ((⟨⟨⟨1, 1, 2, 1, 10, 1⟩, 20, 10⟩, .Low⟩ : CRec).customer_segment.idx ≤
        (⟨⟨⟨1, 3, 2, 1, 90, 1⟩, 180, 90⟩, .High⟩ : CRec).customer_segment.idx) ∧
    (clean_data raw3).map (fun l => l.map (·.customer_segment)) =
      .ok [Tier.Low, Tier.Medium, Tier.High] := by
  obtain ⟨h1, h2, h3⟩ := tier_assignment_monotone_broadcast raw3 cleaned3 clean_raw3
  refine ⟨h1 _ ?_, h2 _ ?_ _ ?_ ?_, h3⟩
  · simp [cleaned3]
  · simp [cleaned3]
  · simp [cleaned3]
  · norm_num [drop_duplicates, dropDupAux, raw3, storeTotal, List.filter]

/-- C2. Derived metrics: on every cleaned record, revenue is
`unit_price * units_sold` and profit is `revenue - reference_price *
units_sold`; hence summed revenue equals the sum of `unit_price * units_sold`. -/
theorem derived_metrics (raw : List RawRec) (d : List CRec)
    (h : clean_data raw = .ok d) :
    (∀ r ∈ d, r.revenue = r.price * r.units ∧
      r.profit = r.revenue - r.base_price * r.units) ∧
    (d.map (·.revenue)).sum = (d.map fun r => r.price * r.units).sum := by
  have hd := clean_data_ok h
  subst hd
  constructor
  · intro r hr
    rcases List.mem_map.1 hr with ⟨m, hm, rfl⟩
    rcases List.mem_map.1 (show m ∈ _ from by simpa [addMetrics] using hm) with ⟨r0, _, rfl⟩
    refine ⟨rfl, ?_⟩
    show r0.price * r0.units - r0.units * r0.base_price =
      r0.price * r0.units - r0.base_price * r0.units
    ring
  · rw [List.map_map, List.map_map]
    refine congrArg List.sum (List.map_congr_left fun m hm => ?_)
    rcases List.mem_map.1 (show m ∈ _ from by simpa [addMetrics] using hm) with ⟨r0, _, rfl⟩
    rfl

/-- Witness for C2 on the concrete scenario dataset. -/
theorem derived_metrics_witness :
    ((⟨⟨⟨1, 2, 2, 1, 50, 1⟩, 100, 50⟩, .Medium⟩ : CRec).revenue =
        (⟨⟨⟨1, 2, 2, 1, 50, 1⟩, 100, 50⟩, .Medium⟩ : CRec).price *
          (⟨⟨⟨1, 2, 2, 1, 50, 1⟩, 100, 50⟩, .Medium⟩ : CRec).units ∧
      (⟨⟨⟨1, 2, 2, 1, 50, 1⟩, 100, 50⟩, .Medium⟩ : CRec).profit =
        (⟨⟨⟨1, 2, 2, 1, 50, 1⟩, 100, 50⟩, .Medium⟩ : CRec).revenue -
          (⟨⟨⟨1, 2, 2, 1, 50, 1⟩, 100, 50⟩, .Medium⟩ : CRec).base_price *
            (⟨⟨⟨1, 2, 2, 1, 50, 1⟩, 100, 50⟩, .Medium⟩ : CRec).units) ∧
    (cleaned3.map (·.revenue)).sum = (cleaned3.map fun r => r.price * r.units).sum := by
  obtain ⟨h1, h2⟩ := derived_metrics raw3 cleaned3 clean_raw3
  exact ⟨h1 _ (by simp [cleaned3]), h2⟩

/-- C4 counterexample: `raw2` has exactly two distinct locations (fewer than
3), yet `clean_data` does not fail — it silently assigns tiers Low and High. -/
theorem insufficient_data_counterexample :
    storeKeys (drop_duplicates raw2) = [1, 2] ∧ clean_data raw2 = .ok cleaned2 := by
  refine ⟨?_, clean_raw2⟩
  norm_num [storeKeys, sortedKeys, insertKey, drop_duplicates, dropDupAux, raw2]

/-- C4 amended: tier computation aborts the run (with the uncaught pandas
ValueError, there is no `InsufficientDataError` in the code) exactly when the
four tertile edges over the location totals are not pairwise distinct — e.g.
for a single location; with two distinct locations of distinct totals it
silently assigns tiers instead of failing. -/
theorem tier_failure_characterization (raw : List RawRec) :
    ((clean_data raw).isOk = false ↔
      ¬ (binEdges (customer_frequency (drop_duplicates raw))).Nodup) ∧
    clean_data raw1 = .error "ValueError: Bin edges must be unique" :=
  ⟨clean_data_isOk_false_iff raw, clean_raw1⟩

/-- C5. Weekly aggregation: one row per distinct timestamp (count matches,
dates strictly ascending, a date appears among the aggregate rows iff some
cleaned record has it), and each row carries the sums of revenue, units and
profit over the records with that timestamp. -/
theorem byWeek_aggregation (rows : List CRec) :
    (weekly_sales rows).length = (rows.map (·.week)).toFinset.card ∧
    ((weekly_sales rows).map (·.date)).Sorted (· < ·) ∧
    (∀ t : ℕ, t ∈ (weekly_sales rows).map (·.date) ↔ t ∈ rows.map (·.week)) ∧
    ∀ w ∈ weekly_sales rows,
      w.revenue = ((rows.filter fun r => r.week = w.date).map (·.revenue)).sum ∧
      w.units = ((rows.filter fun r => r.week = w.date).map (·.units)).sum ∧
      w.profit = ((rows.filter fun r => r.week = w.date).map (·.profit)).sum := by
  have hmap : (weekly_sales rows).map (·.date) = sortedKeys (rows.map (·.week)) := by
    rw [weekly_sales, List.map_map]
    exact List.map_id _
  refine ⟨?_, ?_, ?_, ?_⟩
  · rw [weekly_sales, List.length_map, sortedKeys_length]
  · rw [hmap]
    exact sortedKeys_sorted _
  · intro t
    rw [hmap, mem_sortedKeys]
  · intro w hw
    rcases List.mem_map.1 (show w ∈ _ from by rw [weekly_sales] at hw; exact hw) with ⟨t, _, rfl⟩
    exact ⟨rfl, rfl, rfl⟩

/-- Witness for C5 on a three-record, two-week dataset. -/
theorem byWeek_aggregation_witness :
    (weekly_sales rows5).length = (rows5.map (·.week)).toFinset.card ∧
    ((weekly_sales rows5).map (·.date)).Sorted (· < ·) ∧
    (2 ∈ (weekly_sales rows5).map (·.date) ↔ 2 ∈ rows5.map (·.week)) ∧
    ((⟨2, 10, 2, 3⟩ : WeekRow).revenue =
        ((rows5.filter fun r => r.week = (⟨2, 10, 2, 3⟩ : WeekRow).date).map (·.revenue)).sum ∧
      (⟨2, 10, 2, 3⟩ : WeekRow).units =
        ((rows5.filter fun r => r.week = (⟨2, 10, 2, 3⟩ : WeekRow).date).map (·.units)).sum ∧
      (⟨2, 10, 2, 3⟩ : WeekRow).profit =
        ((rows5.filter fun r => r.week = (⟨2, 10, 2, 3⟩ : WeekRow).date).map (·.profit)).sum) := by
  obtain ⟨h1, h2, h3, h4⟩ := byWeek_aggregation rows5
  refine ⟨h1, h2, h3 2, h4 _ ?_⟩
  norm_num [weekly_sales, rows5, sortedKeys, insertKey, List.filter]

/-- Every record's tier occurs among the segment group keys. -/
theorem mem_segKeys {rows : List CRec} {r : CRec} (hr : r ∈ rows) :
    r.customer_segment ∈ segKeys rows := by
  rw [segKeys, List.mem_filter]
  constructor
  · cases h : r.customer_segment <;> simp
  · rw [List.any_eq_true]
    exact ⟨r, hr, by simp⟩

/-- On nonempty cleaned data, `idxmax` over the segment aggregate succeeds. -/
theorem idxmax_segment_some {rows : List CRec} (h : rows ≠ []) :
    ∃ t, idxmaxRevenue (segment_analysis rows) = some t := by
  obtain ⟨r, rs, rfl⟩ := List.exists_cons_of_ne_nil h
  have hmem := mem_segKeys (List.mem_cons_self r rs)
  obtain ⟨k, ks, hk⟩ := List.exists_cons_of_ne_nil (List.ne_nil_of_mem hmem)
  rw [segment_analysis, hk, List.map_cons]
  exact ⟨_, rfl⟩

/-- If all records carry the same promotion flag, the promotion groupby has a
single key. -/
theorem promo_keys_const {rows : List CRec} {c : ℕ} (h : rows ≠ [])
    (hall : ∀ r ∈ rows, r.featured = c) :
    sortedKeys (rows.map (·.featured)) = [c] := by
  refine sortedKeys_const ?_ ?_
  · simpa using h
  · intro x hx
    rcases List.mem_map.1 hx with ⟨r, hr, rfl⟩
    exact hall r hr

/-- With a single present flag value, looking up any other flag fails. -/
theorem lookupProm_of_const_featured {rows : List CRec} {c fl : ℕ} (h : rows ≠ [])
    (hall : ∀ r ∈ rows, r.featured = c) (hne : fl ≠ c) :
    lookupProm (mkSummary rows) fl = none := by
  have hc : ¬ (c = fl) := fun e => hne e.symm
  rw [lookupProm, show (mkSummary rows).promo_analysis = promo_analysis rows from rfl,
    promo_analysis, promo_keys_const h hall, List.map_cons]
  simp [List.find?, hc]

/-- With a single present flag value, looking that flag up succeeds. -/
theorem lookupProm_of_const_featured_self {rows : List CRec} {c : ℕ} (h : rows ≠ [])
    (hall : ∀ r ∈ rows, r.featured = c) :
    ∃ p, lookupProm (mkSummary rows) c = some p := by
  rw [lookupProm, show (mkSummary rows).promo_analysis = promo_analysis rows from rfl,
    promo_analysis, promo_keys_const h hall, List.map_cons]
  simp [List.find?]

/-- C9 (implicit). If the cleaned data carries only one promotion-flag value,
`generate_report` fails at the `.loc` lookup of the missing flag, and the run
writes the chart files but not the text report. -/
theorem report_requires_both_flags (raw : List RawRec) (d : List CRec) (today : String)
    (h : clean_data raw = .ok d) (hne : d ≠ [])
    (hall : (∀ r ∈ d, r.featured = 1) ∨ (∀ r ∈ d, r.featured = 0)) :
    (generate_report today (analyze_sales_trends ⟨d, none⟩)).isOk = false ∧
    (runMain (some raw) today).1 = chartFiles := by
  have hrep : ∃ e, generate_report today (analyze_sales_trends ⟨d, none⟩) = .error e := by
    show ∃ e, reportBody today d (mkSummary d) = .error e
    obtain ⟨t, ht⟩ := idxmax_segment_some hne
    have ht' : idxmaxRevenue (mkSummary d).segment_analysis = some t := ht
    rcases hall with hall1 | hall0
    · have h0 : lookupProm (mkSummary d) 0 = none :=
        lookupProm_of_const_featured hne hall1 (by omega)
      obtain ⟨p1, hp1⟩ := lookupProm_of_const_featured_self hne hall1
      exact ⟨"KeyError: 0", by simp [reportBody, ht', hp1, h0]⟩
    · have h1 : lookupProm (mkSummary d) 1 = none :=
        lookupProm_of_const_featured hne hall0 (by omega)
      exact ⟨"KeyError: 1", by simp [reportBody, ht', h1]⟩
  obtain ⟨e, he⟩ := hrep
  constructor
  · rw [he]
    rfl
  · simp [runMain, h, he]

/-- Witness for C9 on the all-promoted scenario dataset. -/
theorem report_requires_both_flags_witness :
    (generate_report "2026-01-01" (analyze_sales_trends ⟨cleaned3, none⟩)).isOk = false ∧
    (runMain (some raw3) "2026-01-01").1 = chartFiles := by
  refine report_requires_both_flags raw3 cleaned3 "2026-01-01" clean_raw3
    (by simp [cleaned3]) (Or.inl ?_)
  intro r hr
  simp [cleaned3] at hr
  rcases hr with rfl | rfl | rfl <;> rfl

/-- C8. Aggregator purity and framing: `analyze_sales_trends` leaves the
cleaned records untouched, its summary depends only on the cleaned records,
and the summary is exactly the three grouping results. -/
theorem aggregator_pure (st st' : AppState) (h : st.data = st'.data) :
    (analyze_sales_trends st).data = st.data ∧
    (analyze_sales_trends st).summary = (analyze_sales_trends st').summary ∧
    (analyze_sales_trends st).summary =
      some ⟨weekly_sales st.data, segment_analysis st.data, promo_analysis st.data⟩ := by
  refine ⟨rfl, ?_, rfl⟩
  simp [analyze_sales_trends, mkSummary, h]

/-- Witness for C8: two states with equal data but different stored summaries. -/
theorem aggregator_pure_witness :
    (analyze_sales_trends ⟨rows5, none⟩).data = rows5 ∧
    (analyze_sales_trends ⟨rows5, none⟩).summary =
      (analyze_sales_trends ⟨rows5, some ⟨[], [], []⟩⟩).summary ∧
    (analyze_sales_trends ⟨rows5, none⟩).summary =
      some ⟨weekly_sales rows5, segment_analysis rows5, promo_analysis rows5⟩ :=
  aggregator_pure ⟨rows5, none⟩ ⟨rows5, some ⟨[], [], []⟩⟩ rfl

/-- C6. Promotion judgement: whenever both promotion-flag rows exist in the
summary (and `idxmax` succeeds), the report is produced; it contains
"Positive" and the recommendation "Increase" exactly if the promoted row's
mean profit exceeds the non-promoted row's, and otherwise contains
"Negative" and "Decrease". -/
theorem promotion_judgement (today : String) (st : AppState) (p0 p1 : PromoRow) (t : Tier)
    (ht : idxmaxRevenue (summaryOf st).segment_analysis = some t)
    (h1 : lookupProm (summaryOf st) 1 = some p1)
    (h0 : lookupProm (summaryOf st) 0 = some p0) :
    ∃ rep, generate_report today st = .ok rep ∧
      (p0.profit < p1.profit →
        containsString rep "Positive" ∧ containsString rep "Increase") ∧
      (¬ p0.profit < p1.profit →
        containsString rep "Negative" ∧ containsString rep "Decrease") := by
  refine ⟨reportString today st.data (summaryOf st) t p1 p0, ?_, ?_, ?_⟩
  · simp [generate_report, reportBody, ht, h1, h0]
  · intro hpos
    constructor
    · exact ⟨reportHead today st.data (summaryOf st) t,
        reportMid t ++ ((if p0.profit < p1.profit then "Increase" else "Decrease") ++ reportTail),
        by rw [reportString, if_pos hpos]⟩
    · refine ⟨reportHead today st.data (summaryOf st) t ++ ("Positive" ++ reportMid t),
        reportTail, ?_⟩
      rw [reportString, if_pos hpos, if_pos hpos]
      simp [String.append_assoc]
  · intro hneg
    constructor
    · exact ⟨reportHead today st.data (summaryOf st) t,
        reportMid t ++ ((if p0.profit < p1.profit then "Increase" else "Decrease") ++ reportTail),
        by rw [reportString, if_neg hneg]⟩
    · refine ⟨reportHead today st.data (summaryOf st) t ++ ("Negative" ++ reportMid t),
        reportTail, ?_⟩
      rw [reportString, if_neg hneg, if_neg hneg]
      simp [String.append_assoc]

/-- Witness for C6: promoted mean profit 5 against non-promoted 3 yields a
report containing "Positive" and "Increase". -/
theorem promotion_judgement_witness :
    (generate_report "2026-01-01" state6).isOk = true ∧
    containsString (okOr (generate_report "2026-01-01" state6)) "Positive" ∧
    containsString (okOr (generate_report "2026-01-01" state6)) "Increase" := by
  have ht : idxmaxRevenue (summaryOf state6).segment_analysis = some Tier.Low := rfl
  have h1 : lookupProm (summaryOf state6) 1 = some ⟨1, 1, 5⟩ := rfl
  have h0 : lookupProm (summaryOf state6) 0 = some ⟨1, 1, 3⟩ := rfl
  obtain ⟨rep, hrep, hpos, _⟩ :=
    promotion_judgement "2026-01-01" state6 ⟨1, 1, 3⟩ ⟨1, 1, 5⟩ Tier.Low ht h1 h0
  have h35 : ((⟨1, 1, 3⟩ : PromoRow)).profit < ((⟨1, 1, 5⟩ : PromoRow)).profit := by norm_num
  obtain ⟨hP, hI⟩ := hpos h35
  have hok : okOr (generate_report "2026-01-01" state6) = rep := by
    rw [hrep]
    rfl
  refine ⟨?_, ?_, ?_⟩
  · rw [hrep]
    rfl
  · rw [hok]
    exact hP
  · rw [hok]
    exact hI

/-- C7 counterexample: on the all-promoted scenario input the pipeline fails
(report construction aborts with the KeyError), yet the three chart files
were already written by that run. -/
theorem output_only_on_completion_counterexample :
    runMain (some raw3) "2026-01-01" = (chartFiles, some "KeyError: 0") := by
  have hd : cleaned3 ≠ [] := by simp [cleaned3]
  have hall : ∀ r ∈ cleaned3, r.featured = 1 := by
    intro r hr
    simp [cleaned3] at hr
    rcases hr with rfl | rfl | rfl <;> rfl
  have h0 : lookupProm (mkSummary cleaned3) 0 = none :=
    lookupProm_of_const_featured hd hall (by omega)
  obtain ⟨p1, hp1⟩ := lookupProm_of_const_featured_self hd hall
  obtain ⟨t, ht⟩ := idxmax_segment_some hd
  have ht' : idxmaxRevenue (mkSummary cleaned3).segment_analysis = some t := ht
  have hrep : generate_report "2026-01-01" (analyze_sales_trends ⟨cleaned3, none⟩) =
      .error "KeyError: 0" := by
    show reportBody "2026-01-01" cleaned3 (mkSummary cleaned3) = .error "KeyError: 0"
    simp [reportBody, ht', hp1, h0]
  simp [runMain, clean_raw3, hrep]

/-- C7 amended: a failed fetch or a failed tier computation writes nothing;
the text report is written exactly when the whole run succeeds; but the chart
files are written before report construction, so a report failure leaves the
charts behind (see the counterexample). -/
theorem output_only_on_completion (raw : List RawRec) (today : String) :
    runMain none today = ([], some "FetchError") ∧
    ((clean_data raw).isOk = false → (runMain (some raw) today).1 = []) ∧
    (reportFile ∈ (runMain (some raw) today).1 ↔ (runMain (some raw) today).2 = none) := by
  refine ⟨rfl, ?_, ?_⟩
  · intro hfail
    cases hok : clean_data raw with
    | error e => simp [runMain, hok]
    | ok d =>
      rw [hok] at hfail
      simp [Except.isOk, Except.toBool] at hfail
  · cases hok : clean_data raw with
    | error e => simp [runMain, hok, reportFile]
    | ok d =>
      cases hrep : generate_report today (analyze_sales_trends ⟨d, none⟩) with
      | error e2 => simp [runMain, hok, hrep, reportFile, chartFiles]
      | ok rep => simp [runMain, hok, hrep, reportFile, chartFiles]

/-- Witness for C7: a single-location input fails during cleaning and writes
nothing; a fetch failure writes nothing; on the scenario input the report
file is absent exactly because the run did not complete. -/
theorem output_only_on_completion_witness :
    (runMain (some raw1) "2026-01-01").1 = [] ∧
    runMain none "2026-01-01" = ([], some "FetchError") ∧
    (reportFile ∈ (runMain (some raw3) "2026-01-01").1 ↔
      (runMain (some raw3) "2026-01-01").2 = none) := by
  refine ⟨(output_only_on_completion raw1 "2026-01-01").2.1 ?_,
    (output_only_on_completion raw1 "2026-01-01").1,
    (output_only_on_completion raw3 "2026-01-01").2.2⟩
  rw [clean_raw1]
  rfl

end SalesOpt
